import Mathlib

/-
Verification of the proxxy WebSocket relay (src/index.ts, src/utils.ts,
examples/typescript-proxmox-api.ts) against its natural-language
specification.  The TypeScript source is shallowly embedded: JS strings on
the wire are `List Char`, raw bytes are `Fin 256`, the AES-256 block
primitive of `crypto.subtle` (an external platform library) is a parameter
pair of block functions, and the event-callback handlers of `Bun.serve`
become explicit functions from registry state and event to new state and a
list of observable effects.
-/

namespace Proxxy

/-! ## Bytes -/

/-- A raw byte, as handled by `Buffer` / `Uint8Array` in the source. -/
abbrev Byte := Fin 256

/-- Bytewise xor; 256 = 2 ^ 8, so `Nat.xor` stays below 256. -/
def bxor (a b : Byte) : Byte :=
  ⟨Nat.xor a.val b.val, by
    have h : Nat.xor a.val b.val < 2 ^ 8 :=
      Nat.xor_lt_two_pow (a.isLt) (b.isLt)
    simpa using h⟩

/-- Pointwise xor of two byte sequences (used by CBC chaining). -/
def xorBytes (a b : List Byte) : List Byte := List.zipWith bxor a b

theorem bxor_bxor_cancel (a p : Byte) : bxor (bxor a p) p = a := by
  unfold bxor
  apply Fin.ext
  show a.val ^^^ p.val ^^^ p.val = a.val
  rw [Nat.xor_assoc, Nat.xor_self, Nat.xor_zero]

theorem xorBytes_length (a b : List Byte) :
    (xorBytes a b).length = min a.length b.length := by
  simp [xorBytes]

theorem xorBytes_cancel (a p : List Byte) (h : a.length = p.length) :
    xorBytes (xorBytes a p) p = a := by
  induction a generalizing p with
  | nil => simp [xorBytes]
  | cons x xs ih =>
    cases p with
    | nil => simp at h
    | cons y ys =>
      have h' : xs.length = ys.length := by simpa using h
      simp only [xorBytes, List.zipWith_cons_cons] at *
      rw [bxor_bxor_cancel, ih ys h']

/-! ## Hex encoding (Buffer.toString("hex") / Buffer.from(hex, "hex")) -/

/-- Lowercase hex digit for a nibble, as Node's `Buffer.toString("hex")`. -/
def hexDigit (n : Nat) : Char :=
  if n < 10 then Char.ofNat (48 + n) else Char.ofNat (87 + n)

/-- Two lowercase hex characters for one byte. -/
def toHexByte (b : Byte) : List Char :=
  [hexDigit (b.val / 16), hexDigit (b.val % 16)]

/-- Hex rendering of a byte sequence, as `Buffer.toString("hex")`. -/
def toHex (bs : List Byte) : List Char := (bs.map toHexByte).flatten

/-- Value of a hex character, upper or lower case, as accepted by
`Buffer.from(-, "hex")`. -/
def hexVal (c : Char) : Option Nat :=
  if 48 ≤ c.toNat ∧ c.toNat ≤ 57 then some (c.toNat - 48)
  else if 97 ≤ c.toNat ∧ c.toNat ≤ 102 then some (c.toNat - 87)
  else if 65 ≤ c.toNat ∧ c.toNat ≤ 70 then some (c.toNat - 55)
  else none

/-- Decode hex pairs as `Buffer.from(-, "hex")`: consume two characters at a
time, stopping (without error) at the first invalid pair or odd leftover. -/
def fromHex : List Char → List Byte
  | c1 :: c2 :: rest =>
    match hexVal c1, hexVal c2 with
    | some h, some l => ⟨(16 * h + l) % 256, Nat.mod_lt _ (by norm_num)⟩ :: fromHex rest
    | _, _ => []
  | _ => []

theorem hexVal_hexDigit (n : Nat) (h : n < 16) : hexVal (hexDigit n) = some n := by
  interval_cases n <;> decide

theorem hexDigit_ne_colon (n : Nat) (h : n < 16) : hexDigit n ≠ ':' := by
  interval_cases n <;> decide

theorem hexDigit_ne_dot (n : Nat) (h : n < 16) : hexDigit n ≠ '.' := by
  interval_cases n <;> decide

theorem fromHex_toHex (bs : List Byte) : fromHex (toHex bs) = bs := by
  induction bs with
  | nil => rfl
  | cons b rest ih =>
    have hdiv : b.val / 16 < 16 := by
      have := b.isLt
      omega
    have hmod : b.val % 16 < 16 := Nat.mod_lt _ (by norm_num)
    simp only [toHex, List.map_cons, List.flatten_cons, toHexByte, List.cons_append,
      List.nil_append, fromHex, hexVal_hexDigit _ hdiv, hexVal_hexDigit _ hmod,
      List.cons.injEq]
    constructor
    · apply Fin.ext
      have hb := b.isLt
      simp only []
      omega
    · simpa [toHex] using ih

theorem toHex_not_mem (c : Char) (bs : List Byte)
    (h : ∀ n, n < 16 → hexDigit n ≠ c) : c ∉ toHex bs := by
  intro hmem
  simp [toHex, toHexByte] at hmem
  rcases hmem with ⟨a, _, h1 | h1⟩
  · exact h _ (by have := a.isLt; omega) h1.symm
  · exact h _ (Nat.mod_lt _ (by norm_num)) h1.symm

theorem toHex_length (bs : List Byte) : (toHex bs).length = 2 * bs.length := by
  induction bs with
  | nil => rfl
  | cons b rest ih =>
    simp only [toHex, List.map_cons, List.flatten_cons, toHexByte, List.length_append,
      List.length_cons, List.length_nil] at *
    omega

/-! ## String splitting (JS String.prototype.split with a one-char separator) -/

/-- JS-style split on a single character: every occurrence of the separator
ends a field, so a trailing separator yields a trailing empty field and the
empty input yields one empty field. -/
def splitCh (sep : Char) : List Char → List (List Char)
  | [] => [[]]
  | c :: rest =>
    if c = sep then [] :: splitCh sep rest
    else
      match splitCh sep rest with
      | [] => [[c]]
      | h :: t => (c :: h) :: t

theorem splitCh_ne_nil (sep : Char) (l : List Char) : splitCh sep l ≠ [] := by
  induction l with
  | nil => simp [splitCh]
  | cons c rest ih =>
    by_cases h : c = sep
    · simp [splitCh, h]
    · simp only [splitCh, if_neg h]
      cases hs : splitCh sep rest with
      | nil => simp
      | cons a b => simp

theorem splitCh_of_not_mem (sep : Char) (l : List Char) (h : sep ∉ l) :
    splitCh sep l = [l] := by
  induction l with
  | nil => rfl
  | cons c rest ih =>
    have hc : c ≠ sep := fun hh => h (by simp [hh])
    have hr : sep ∉ rest := fun hh => h (by simp [hh])
    simp [splitCh, hc, ih hr]

theorem splitCh_append (sep : Char) (l r : List Char) (h : sep ∉ l) :
    splitCh sep (l ++ sep :: r) = l :: splitCh sep r := by
  induction l with
  | nil => simp [splitCh]
  | cons c rest ih =>
    have hc : c ≠ sep := fun hh => h (by simp [hh])
    have hr : sep ∉ rest := fun hh => h (by simp [hh])
    simp only [List.cons_append, splitCh, if_neg hc, List.append_eq]
    rw [ih hr]

/-! ## PKCS#7 padding

`crypto.subtle`'s AES-CBC applies PKCS#7 padding on encrypt and checks and
strips it on decrypt; these model that behavior for a 16-byte block size. -/

/-- A byte holding a padding length (always between 1 and 16). -/
def padByte (n : Nat) : Byte := ⟨n % 256, Nat.mod_lt _ (by norm_num)⟩

/-- Append PKCS#7 padding up to the 16-byte block boundary; a message that
is already block-aligned receives one full block of padding. -/
def pkcs7pad (msg : List Byte) : List Byte :=
  msg ++ List.replicate (16 - msg.length % 16) (padByte (16 - msg.length % 16))

/-- Check and strip PKCS#7 padding; `none` when the padding is invalid. -/
def pkcs7unpad (msg : List Byte) : Option (List Byte) :=
  match msg.getLast? with
  | none => none
  | some b =>
    if 1 ≤ b.val ∧ b.val ≤ 16 ∧ b.val ≤ msg.length ∧
        (∀ x ∈ msg.drop (msg.length - b.val), x = b)
    then some (msg.take (msg.length - b.val))
    else none

theorem pkcs7pad_length (msg : List Byte) :
    (pkcs7pad msg).length = msg.length + (16 - msg.length % 16) := by
  simp [pkcs7pad]

theorem pkcs7pad_length_dvd (msg : List Byte) : 16 ∣ (pkcs7pad msg).length := by
  rw [pkcs7pad_length]
  have h := Nat.mod_lt msg.length (show 0 < 16 by norm_num)
  have h2 := Nat.div_add_mod msg.length 16
  omega

theorem pkcs7pad_length_pos (msg : List Byte) : 0 < (pkcs7pad msg).length := by
  rw [pkcs7pad_length]
  have h := Nat.mod_lt msg.length (show 0 < 16 by norm_num)
  omega

theorem getLast?_replicate_pos (n : Nat) (b : Byte) (h : 1 ≤ n) :
    (List.replicate n b).getLast? = some b := by
  induction n with
  | zero => omega
  | succ m ih =>
    by_cases hm : 1 ≤ m
    · rw [List.replicate_succ, List.getLast?_cons, ih hm]
      simp [List.getLastD_eq_getLast?, ih hm]
    · have : m = 0 := by omega
      subst this
      rfl

theorem pkcs7unpad_pkcs7pad (msg : List Byte) :
    pkcs7unpad (pkcs7pad msg) = some msg := by
  set p := 16 - msg.length % 16 with hp
  have hmod := Nat.mod_lt msg.length (show 0 < 16 by norm_num)
  have hp1 : 1 ≤ p := by omega
  have hp16 : p ≤ 16 := by omega
  have hpv : (padByte p).val = p := by
    simp [padByte]
    omega
  have hlast : (pkcs7pad msg).getLast? = some (padByte p) := by
    rw [pkcs7pad, List.getLast?_append_of_ne_nil, getLast?_replicate_pos _ _ hp1]
    simp [List.replicate, hp1]
    omega
  have hlen : (pkcs7pad msg).length = msg.length + p := pkcs7pad_length msg
  rw [pkcs7unpad, hlast]
  simp only [hpv, hlen]
  have hsub : msg.length + p - p = msg.length := by omega
  rw [if_pos]
  · rw [hsub]
    rw [pkcs7pad]
    rw [show msg.length = (msg).length from rfl, List.take_left]
  · refine ⟨hp1, hp16, by omega, ?_⟩
    rw [hsub, pkcs7pad, List.drop_left]
    intro x hx
    exact (List.eq_of_mem_replicate hx)

/-! ## Block chunking and CBC mode

`crypto.subtle`'s AES-CBC processes the (padded) input in 16-byte blocks,
chaining with xor; the AES-256 block primitive itself is an external
platform function and is a parameter here. -/

/-- Split a byte sequence into consecutive 16-byte blocks (the last block
may be short if the input is not block-aligned). -/
def chunk16 (l : List Byte) : List (List Byte) :=
  if h : l = [] then [] else l.take 16 :: chunk16 (l.drop 16)
termination_by l.length
decreasing_by
  simp only [List.length_drop]
  have hpos : 0 < l.length := List.length_pos.mpr h
  omega

theorem chunk16_flatten (l : List Byte) : (chunk16 l).flatten = l := by
  induction l using chunk16.induct with
  | case1 => simp [chunk16]
  | case2 l h ih =>
    rw [chunk16]
    simp only [dif_neg h, List.flatten_cons, ih, List.take_append_drop]

theorem chunk16_length_16 (l : List Byte) (h : 16 ∣ l.length) :
    ∀ b ∈ chunk16 l, b.length = 16 := by
  induction l using chunk16.induct with
  | case1 => simp [chunk16]
  | case2 l hne ih =>
    rw [chunk16]
    simp only [dif_neg hne, List.mem_cons]
    have hpos : 0 < l.length := List.length_pos.mpr hne
    have h16 : 16 ≤ l.length := by
      rcases h with ⟨k, hk⟩
      rcases Nat.eq_zero_or_pos k with h0 | h0
      · omega
      · have : 16 * 1 ≤ 16 * k := Nat.mul_le_mul_left 16 h0
        omega
    intro b hb
    rcases hb with hb | hb
    · rw [hb, List.length_take]
      omega
    · refine ih ?_ b hb
      rcases h with ⟨k, hk⟩
      exact ⟨k - 1, by simp [List.length_drop]; omega⟩

theorem chunk16_of_blocks (bl : List (List Byte))
    (h : ∀ b ∈ bl, b.length = 16) : chunk16 bl.flatten = bl := by
  induction bl with
  | nil => simp [chunk16]
  | cons b rest ih =>
    have hb : b.length = 16 := h b (by simp)
    have hbne : b ≠ [] := by
      intro hh
      rw [hh] at hb
      simp at hb
    have hne : b ++ rest.flatten ≠ [] := by
      intro hh
      exact hbne (List.append_eq_nil.mp hh).1
    rw [List.flatten_cons, chunk16]
    rw [dif_neg hne]
    rw [show (16 : Nat) = b.length from hb.symm, List.take_left, List.drop_left]
    rw [ih (fun x hx => h x (by simp [hx]))]

theorem flatten_length_16 (bl : List (List Byte))
    (h : ∀ b ∈ bl, b.length = 16) : bl.flatten.length = 16 * bl.length := by
  induction bl with
  | nil => simp
  | cons b rest ih =>
    simp only [List.flatten_cons, List.length_append, List.length_cons,
      h b (by simp), ih (fun x hx => h x (by simp [hx]))]
    ring

/-- CBC encryption over a list of plaintext blocks: each block is xored
with the previous ciphertext block (the IV for the first) and passed
through the block cipher. -/
def cbcEncBlocks (encB : List Byte → List Byte) (prev : List Byte) :
    List (List Byte) → List (List Byte)
  | [] => []
  | b :: bs =>
    let c := encB (xorBytes b prev)
    c :: cbcEncBlocks encB c bs

/-- CBC decryption over a list of ciphertext blocks. -/
def cbcDecBlocks (decB : List Byte → List Byte) (prev : List Byte) :
    List (List Byte) → List (List Byte)
  | [] => []
  | c :: cs => xorBytes (decB c) prev :: cbcDecBlocks decB c cs

/-- AES-256-CBC encryption of a byte message, as `crypto.subtle.encrypt`:
pad, chunk, chain. -/
def cbcEncrypt (encB : List Byte → List Byte) (iv msg : List Byte) : List Byte :=
  (cbcEncBlocks encB iv (chunk16 msg)).flatten

/-- AES-256-CBC decryption (before padding removal), as the core of
`crypto.subtle.decrypt`. -/
def cbcDecrypt (decB : List Byte → List Byte) (iv ct : List Byte) : List Byte :=
  (cbcDecBlocks decB iv (chunk16 ct)).flatten

theorem cbcEncBlocks_length_16 (encB : List Byte → List Byte)
    (h2 : ∀ b : List Byte, b.length = 16 → (encB b).length = 16)
    (prev : List Byte) (hprev : prev.length = 16) (bl : List (List Byte))
    (hbl : ∀ b ∈ bl, b.length = 16) :
    ∀ c ∈ cbcEncBlocks encB prev bl, c.length = 16 := by
  induction bl generalizing prev with
  | nil => simp [cbcEncBlocks]
  | cons b bs ih =>
    simp only [cbcEncBlocks, List.mem_cons]
    have hx : (xorBytes b prev).length = 16 := by
      rw [xorBytes_length, hbl b (by simp), hprev]
      simp
    have hc : (encB (xorBytes b prev)).length = 16 := h2 _ hx
    intro c hc2
    rcases hc2 with hc2 | hc2
    · rw [hc2]
      exact hc
    · exact ih _ hc (fun x hx2 => hbl x (by simp [hx2])) c hc2

theorem cbcDecBlocks_cbcEncBlocks (encB decB : List Byte → List Byte)
    (h1 : ∀ b : List Byte, b.length = 16 → decB (encB b) = b)
    (h2 : ∀ b : List Byte, b.length = 16 → (encB b).length = 16)
    (prev : List Byte) (hprev : prev.length = 16) (bl : List (List Byte))
    (hbl : ∀ b ∈ bl, b.length = 16) :
    cbcDecBlocks decB prev (cbcEncBlocks encB prev bl) = bl := by
  induction bl generalizing prev with
  | nil => simp [cbcEncBlocks, cbcDecBlocks]
  | cons b bs ih =>
    have hb : b.length = 16 := hbl b (by simp)
    have hx : (xorBytes b prev).length = 16 := by
      rw [xorBytes_length, hb, hprev]
      simp
    simp only [cbcEncBlocks, cbcDecBlocks]
    rw [h1 _ hx, xorBytes_cancel b prev (by omega)]
    rw [ih _ (h2 _ hx) (fun x hx2 => hbl x (by simp [hx2]))]

theorem cbcDecrypt_cbcEncrypt (encB decB : List Byte → List Byte)
    (h1 : ∀ b : List Byte, b.length = 16 → decB (encB b) = b)
    (h2 : ∀ b : List Byte, b.length = 16 → (encB b).length = 16)
    (iv msg : List Byte) (hiv : iv.length = 16) (hmsg : 16 ∣ msg.length) :
    cbcDecrypt decB iv (cbcEncrypt encB iv msg) = msg := by
  unfold cbcEncrypt cbcDecrypt
  rw [chunk16_of_blocks _
    (cbcEncBlocks_length_16 encB h2 iv hiv _ (chunk16_length_16 msg hmsg))]
  rw [cbcDecBlocks_cbcEncBlocks encB decB h1 h2 iv hiv _ (chunk16_length_16 msg hmsg)]
  exact chunk16_flatten msg

/-! ## Payload codec

`decryptPayload` embeds src/utils.ts decryptPayload; `encryptPayload`
embeds the backend-side encoder of examples/typescript-proxmox-api.ts.
The AES-256 block primitive and the key live behind the `encB`/`decB`
parameters; `keyPresent` models whether SIGNATURE_KEY is set. -/

inductive DecErr
  | malformed
  | keyMissing
  | decryptFailed
  deriving DecidableEq, Repr

/-- hex(iv) ++ ":" ++ hex(AES-256-CBC-encrypt(iv, pad(payload))). -/
def encryptPayload (encB : List Byte → List Byte) (iv payload : List Byte) :
    List Char :=
  toHex iv ++ ':' :: toHex (cbcEncrypt encB iv (pkcs7pad payload))

/-- Split on ":", fail `malformed` when either half is missing or empty,
hex-decode both halves, fail `keyMissing` without a key, then AES-256-CBC
decrypt, failing `decryptFailed` on a bad IV length, bad ciphertext length
or invalid padding. -/
def decryptPayload (decB : List Byte → List Byte) (keyPresent : Bool)
    (payload : List Char) : Except DecErr (List Byte) :=
  let parts := splitCh ':' payload
  let ivHex := parts.getD 0 []
  let encryptedHex := parts.getD 1 []
  if ivHex = [] ∨ encryptedHex = [] then .error .malformed
  else
    let iv := fromHex ivHex
    let encrypted := fromHex encryptedHex
    if keyPresent = false then .error .keyMissing
    else if iv.length = 16 ∧ encrypted.length ≠ 0 ∧ encrypted.length % 16 = 0 then
      match pkcs7unpad (cbcDecrypt decB iv encrypted) with
      | some m => .ok m
      | none => .error .decryptFailed
    else .error .decryptFailed

theorem cbcEncBlocks_length_eq (encB : List Byte → List Byte)
    (prev : List Byte) (bl : List (List Byte)) :
    (cbcEncBlocks encB prev bl).length = bl.length := by
  induction bl generalizing prev with
  | nil => rfl
  | cons b bs ih => simp [cbcEncBlocks, ih]

theorem cbcEncrypt_length (encB : List Byte → List Byte)
    (h2 : ∀ b : List Byte, b.length = 16 → (encB b).length = 16)
    (iv msg : List Byte) (hiv : iv.length = 16) (hmsg : 16 ∣ msg.length) :
    (cbcEncrypt encB iv msg).length = msg.length := by
  unfold cbcEncrypt
  rw [flatten_length_16 _ (cbcEncBlocks_length_16 encB h2 iv hiv _
    (chunk16_length_16 _ hmsg))]
  rw [cbcEncBlocks_length_eq]
  rw [← flatten_length_16 _ (chunk16_length_16 _ hmsg), chunk16_flatten]

theorem decryptPayload_encryptPayload (encB decB : List Byte → List Byte)
    (h1 : ∀ b : List Byte, b.length = 16 → decB (encB b) = b)
    (h2 : ∀ b : List Byte, b.length = 16 → (encB b).length = 16)
    (iv : List Byte) (hiv : iv.length = 16) (payload : List Byte) :
    decryptPayload decB true (encryptPayload encB iv payload) = .ok payload := by
  have hivne : toHex iv ≠ [] := by
    have hl := toHex_length iv
    intro hh
    rw [hh, hiv] at hl
    simp at hl
  have hctlen : (cbcEncrypt encB iv (pkcs7pad payload)).length =
      (pkcs7pad payload).length :=
    cbcEncrypt_length encB h2 iv _ hiv (pkcs7pad_length_dvd payload)
  have hctne : toHex (cbcEncrypt encB iv (pkcs7pad payload)) ≠ [] := by
    have hl := toHex_length (cbcEncrypt encB iv (pkcs7pad payload))
    have hp := pkcs7pad_length_pos payload
    intro hh
    rw [hh, hctlen] at hl
    simp at hl
    rw [hl] at hp
    simp at hp
  unfold encryptPayload decryptPayload
  rw [splitCh_append _ _ _ (toHex_not_mem _ _ hexDigit_ne_colon),
    splitCh_of_not_mem _ _ (toHex_not_mem _ _ hexDigit_ne_colon)]
  simp only [List.getD_cons_zero, List.getD_cons_succ]
  rw [if_neg (by
    intro hh
    rcases hh with hh | hh
    · exact hivne hh
    · exact hctne hh)]
  simp only [fromHex_toHex]
  rw [if_neg (by simp)]
  rw [if_pos ⟨hiv, by
      rw [hctlen]
      have hp := pkcs7pad_length_pos payload
      omega, by
      rw [hctlen]
      rcases pkcs7pad_length_dvd payload with ⟨k, hk⟩
      omega⟩]
  rw [cbcDecrypt_cbcEncrypt encB decB h1 h2 iv _ hiv (pkcs7pad_length_dvd payload)]
  rw [pkcs7unpad_pkcs7pad]

/-! ## Descriptor schema (websocketDataSchema in src/utils.ts)

The decrypted JSON object is modelled as a record of optional fields, each
a string, an integral number, or some other JSON value; zod's hostname
format is embedded as `isValidHostname` (dot-separated labels of 1-63
alphanumeric-or-hyphen characters not starting or ending with a hyphen,
total length at most 253). -/

inductive GuestType
  | qemu
  | lxc
  deriving DecidableEq, Repr

def guestTypeStr : GuestType → String
  | .qemu => "qemu"
  | .lxc => "lxc"

/-- z4.union([z4.string(), z4.number()]): a port is any string or number. -/
inductive PortVal
  | str (s : String)
  | num (n : Int)
  deriving DecidableEq, Repr

/-- The validated descriptor (the WebSocketData type of src/utils.ts). -/
structure WebSocketData where
  vmid : Int
  type : GuestType
  host : String
  node : String
  ticket : String
  vncticket : String
  port : PortVal
  deriving DecidableEq, Repr

/-- A JSON field value as seen by the schema: a string, an integral
number, or anything else (boolean, null, object, array, ...). -/
inductive JsonVal
  | str (s : String)
  | num (n : Int)
  | other
  deriving DecidableEq, Repr

/-- The decoded JSON object presented to websocketDataSchema.parseAsync:
each of the seven recognized keys is present with a value or absent. -/
structure RawPayload where
  vmid : Option JsonVal
  type : Option JsonVal
  host : Option JsonVal
  node : Option JsonVal
  ticket : Option JsonVal
  vncticket : Option JsonVal
  port : Option JsonVal
  deriving DecidableEq, Repr

def isAlnumAscii (c : Char) : Bool :=
  (decide (48 ≤ c.toNat) && decide (c.toNat ≤ 57)) ||
  (decide (65 ≤ c.toNat) && decide (c.toNat ≤ 90)) ||
  (decide (97 ≤ c.toNat) && decide (c.toNat ≤ 122))

def isHostLabel (l : List Char) : Bool :=
  !l.isEmpty && decide (l.length ≤ 63) &&
    l.all (fun c => isAlnumAscii c || c == '-') &&
    isAlnumAscii (l.headD 'x') && isAlnumAscii (l.getLastD 'x')

/-- z4.hostname(): dot-separated labels, each 1-63 alphanumeric-or-hyphen
characters not starting or ending with a hyphen, total length at most
253. -/
def isValidHostname (s : String) : Bool :=
  let l := s.toList
  decide (1 ≤ l.length) && decide (l.length ≤ 253) &&
    (splitCh '.' l).all isHostLabel

/-- z4.int().positive(): an integral number strictly greater than zero. -/
def parseVmid : Option JsonVal → Option Int
  | some (.num n) => if 0 < n then some n else none
  | _ => none

/-- z4.enum(["qemu", "lxc"]). -/
def parseGuestType : Option JsonVal → Option GuestType
  | some (.str s) =>
    if s = "qemu" then some .qemu
    else if s = "lxc" then some .lxc
    else none
  | _ => none

/-- z4.hostname() as a field parser. -/
def parseHostField : Option JsonVal → Option String
  | some (.str s) => if isValidHostname s then some s else none
  | _ => none

/-- z4.string(). -/
def parseStringField : Option JsonVal → Option String
  | some (.str s) => some s
  | _ => none

/-- z4.union([z4.string(), z4.number()]). -/
def parsePortField : Option JsonVal → Option PortVal
  | some (.str s) => some (.str s)
  | some (.num n) => some (.num n)
  | _ => none

/-- Names of the fields whose validation failed, in schema order (zod
aggregates all issues before rejecting). -/
def fieldIssues (raw : RawPayload) : List String :=
  (if (parseVmid raw.vmid).isNone then ["vmid"] else []) ++
  (if (parseGuestType raw.type).isNone then ["type"] else []) ++
  (if (parseHostField raw.host).isNone then ["host"] else []) ++
  (if (parseHostField raw.node).isNone then ["node"] else []) ++
  (if (parseStringField raw.ticket).isNone then ["ticket"] else []) ++
  (if (parseStringField raw.vncticket).isNone then ["vncticket"] else []) ++
  (if (parsePortField raw.port).isNone then ["port"] else [])

/-- websocketDataSchema.parseAsync: the whole object parses, or the parse
is rejected with the list of violated fields; there is no partial
acceptance. -/
def websocketDataParse (raw : RawPayload) : Except (List String) WebSocketData :=
  match parseVmid raw.vmid, parseGuestType raw.type, parseHostField raw.host,
      parseHostField raw.node, parseStringField raw.ticket,
      parseStringField raw.vncticket, parsePortField raw.port with
  | some v, some t, some h, some n, some tk, some vt, some p =>
    .ok ⟨v, t, h, n, tk, vt, p⟩
  | _, _, _, _, _, _, _ => .error (fieldIssues raw)

/-! ## Target URL (constructWebsocketUrl in src/utils.ts) -/

/-- The observable parts of the WHATWG URL object built by the source:
protocol, host, pathname and the search parameters set on it. -/
structure Url where
  protocol : String
  host : String
  pathname : String
  searchParams : List (String × String)
  deriving DecidableEq, Repr

/-- JS template-literal stringification of the port field. -/
def portToString : PortVal → String
  | .str s => s
  | .num n => toString n

/-- constructWebsocketUrl: wss scheme, the descriptor's host as authority,
the fixed vncwebsocket path template, and port and vncticket as query
parameters. -/
def constructWebsocketUrl (host node : String) (vmid : Int) (type : GuestType)
    (port : PortVal) (vncticket : String) : Url :=
  { protocol := "wss:"
    host := host
    pathname := "/api2/json/nodes/" ++ node ++ "/" ++ guestTypeStr type ++ "/" ++
      toString vmid ++ "/vncwebsocket"
    searchParams := [("port", portToString port), ("vncticket", vncticket)] }

/-! ## Upstream authorization header (open handler in src/index.ts) -/

/-- List-level starts-with check. -/
def startsWithList : List Char → List Char → Bool
  | _, [] => true
  | [], _ :: _ => false
  | c :: cs, d :: ds => c == d && startsWithList cs ds

/-- JS String.prototype.startsWith. -/
def jsStartsWith (s pat : String) : Bool := startsWithList s.toList pat.toList

/-- The authorization header value chosen in the open handler: the ticket
itself when it starts with "PVEAPIToken=", else the ticket wrapped as a
PVEAuthCookie value. -/
def authorizationHeader (ticket : String) : String :=
  if jsStartsWith ticket "PVEAPIToken=" then ticket
  else "PVEAuthCookie=" ++ ticket

/-! ## Upgrade endpoint (fetch handler in src/index.ts)

JSON.parse is an external platform function and is a parameter; a `none`
result models a thrown SyntaxError.  Only a zod validation error is mapped
to HTTP 400 by the catch block; every other thrown error becomes 500. -/

/-- An incoming HTTP request: its method and its decoded payload query
parameter (absent when the parameter is missing). -/
structure Request where
  method : String
  payload : Option (List Char)

/-- Outcome of the fetch handler: an HTTP JSON error response with its
status, error message and issues, or a WebSocket upgrade carrying the
validated descriptor. -/
inductive FetchResult
  | response (status : Nat) (error : String) (issues : List String)
  | upgrade (data : WebSocketData)
  deriving DecidableEq, Repr

/-- The fetch handler of Bun.serve in src/index.ts. -/
def relayFetch (decB : List Byte → List Byte) (keyPresent : Bool)
    (jsonParse : List Byte → Option RawPayload) (req : Request) : FetchResult :=
  if req.method ≠ "GET" then
    .response 405 "Method not allowed. Supported methods: GET" []
  else if req.payload.getD [] = [] then
    .response 400 "Missing payload" []
  else
    match decryptPayload decB keyPresent (req.payload.getD []) with
    | .error _ => .response 500 "Internal server error" []
    | .ok bytes =>
      match jsonParse bytes with
      | none => .response 500 "Internal server error" []
      | some raw =>
        match websocketDataParse raw with
        | .error issues => .response 400 "Invalid payload" issues
        | .ok data => .upgrade data

/-! ## Relay sessions and the registry (websocket handlers in src/index.ts)

The process-wide `sockets` Map from vmid to the upstream WebSocket is an
association list with at most one binding per key; connections are
identified by opaque ids.  Each handler returns the new registry and the
list of sends/closes it performs. -/

abbrev ConnId := Nat

/-- One relay session: the client connection, the vmid from its upgrade
data, and the upstream connection its open handler created. -/
structure Session where
  client : ConnId
  vmid : Int
  upstream : ConnId
  deriving DecidableEq, Repr

abbrev Registry := List (Int × ConnId)

/-- sockets.get(vmid). -/
def mapGet (r : Registry) (k : Int) : Option ConnId :=
  (r.find? (fun p => p.1 == k)).map (fun p => p.2)

/-- sockets.delete(vmid). -/
def eraseKey (r : Registry) (k : Int) : Registry :=
  r.filter (fun p => !(p.1 == k))

/-- sockets.set(vmid, conn): unconditionally (re)bind the key. -/
def mapSet (r : Registry) (k : Int) (v : ConnId) : Registry :=
  (k, v) :: eraseKey r k

/-- An observable I/O action performed by a handler. -/
inductive Effect
  | sendUpstream (conn : ConnId) (frame : String)
  | sendClient (client : ConnId) (frame : String)
  | closeClient (client : ConnId) (code : Nat) (reason : String)
  | closeUpstream (conn : ConnId) (code : Nat) (reason : String)
  deriving DecidableEq, Repr

/-- The events the source registers callbacks for: a client frame, the
upstream open/message/error/close listeners, and the client close. -/
inductive WsEvent
  | clientMsg (s : Session) (frame : String)
  | upOpen (s : Session)
  | upMsg (s : Session) (frame : String)
  | upErr (s : Session)
  | upClose (s : Session) (code : Nat)
  | clientClose (s : Session) (code : Nat) (reason : String)
  deriving DecidableEq, Repr

/-- websocket.message: look the upstream up under the client's vmid at
arrival time; forward there, or close the client with 1011 when absent. -/
def handleClientMessage (r : Registry) (s : Session) (frame : String) :
    Registry × List Effect :=
  match mapGet r s.vmid with
  | none => (r, [.closeClient s.client 1011 "Upstream websocket not found"])
  | some sock => (r, [.sendUpstream sock frame])

/-- The upstream open listener: register the upstream under the vmid. -/
def handleUpstreamOpen (r : Registry) (s : Session) : Registry × List Effect :=
  (mapSet r s.vmid s.upstream, [])

/-- The upstream message listener: forward the frame to the client. -/
def handleUpstreamMessage (r : Registry) (s : Session) (frame : String) :
    Registry × List Effect :=
  (r, [.sendClient s.client frame])

/-- The upstream error listener: close the client with a fixed code. -/
def handleUpstreamError (r : Registry) (s : Session) : Registry × List Effect :=
  (r, [.closeClient s.client 1011 "Upstream websocket error"])

/-- The upstream close listener: close the client reusing the upstream
close code with a fixed reason. -/
def handleUpstreamClose (r : Registry) (s : Session) (code : Nat) :
    Registry × List Effect :=
  (r, [.closeClient s.client code "Upstream websocket closed"])

/-- websocket.close: when any upstream is registered under the client's
vmid, close it with the client's code and reason and drop the entry. -/
def handleClientClose (r : Registry) (s : Session) (code : Nat) (reason : String) :
    Registry × List Effect :=
  match mapGet r s.vmid with
  | none => (r, [])
  | some sock => (eraseKey r s.vmid, [.closeUpstream sock code reason])

/-- Dispatch one event to its handler. -/
def step (r : Registry) (e : WsEvent) : Registry × List Effect :=
  match e with
  | .clientMsg s frame => handleClientMessage r s frame
  | .upOpen s => handleUpstreamOpen r s
  | .upMsg s frame => handleUpstreamMessage r s frame
  | .upErr s => handleUpstreamError r s
  | .upClose s code => handleUpstreamClose r s code
  | .clientClose s code reason => handleClientClose r s code reason

/-- Registry reached from the empty initial Map after a list of events. -/
def runEvents (evts : List WsEvent) : Registry :=
  evts.foldl (fun r e => (step r e).1) []

/-- Number of registry bindings for one guest identifier. -/
def countKey (r : Registry) (g : Int) : Nat :=
  (r.filter (fun p => p.1 == g)).length

/-! ## Registry lemmas -/

theorem mapGet_cons_eq (p : Int × ConnId) (rest : Registry) (g : Int)
    (h : p.1 = g) : mapGet (p :: rest) g = some p.2 := by
  unfold mapGet
  rw [List.find?_cons_of_pos _ (by simp [h])]
  rfl

theorem mapGet_cons_ne (p : Int × ConnId) (rest : Registry) (g : Int)
    (h : p.1 ≠ g) : mapGet (p :: rest) g = mapGet rest g := by
  unfold mapGet
  rw [List.find?_cons_of_neg _ (by simp [h])]

theorem eraseKey_cons_eq (p : Int × ConnId) (rest : Registry) (k : Int)
    (h : p.1 = k) : eraseKey (p :: rest) k = eraseKey rest k := by
  simp [eraseKey, List.filter_cons, h]

theorem eraseKey_cons_ne (p : Int × ConnId) (rest : Registry) (k : Int)
    (h : p.1 ≠ k) : eraseKey (p :: rest) k = p :: eraseKey rest k := by
  simp [eraseKey, List.filter_cons, h]

theorem mapGet_mapSet_self (r : Registry) (k : Int) (v : ConnId) :
    mapGet (mapSet r k v) k = some v := by
  unfold mapSet
  rw [mapGet_cons_eq _ _ _ rfl]

theorem mapGet_eraseKey_self (r : Registry) (k : Int) :
    mapGet (eraseKey r k) k = none := by
  induction r with
  | nil => rfl
  | cons p rest ih =>
    by_cases h : p.1 = k
    · rw [eraseKey_cons_eq _ _ _ h]
      exact ih
    · rw [eraseKey_cons_ne _ _ _ h, mapGet_cons_ne _ _ _ h]
      exact ih

theorem mapGet_eraseKey_none (r : Registry) (k g : Int) (h : mapGet r g = none) :
    mapGet (eraseKey r k) g = none := by
  induction r with
  | nil => rfl
  | cons p rest ih =>
    by_cases hg : p.1 = g
    · rw [mapGet_cons_eq _ _ _ hg] at h
      exact absurd h (by simp)
    · rw [mapGet_cons_ne _ _ _ hg] at h
      by_cases hk : p.1 = k
      · rw [eraseKey_cons_eq _ _ _ hk]
        exact ih h
      · rw [eraseKey_cons_ne _ _ _ hk, mapGet_cons_ne _ _ _ hg]
        exact ih h

theorem countKey_cons_eq (p : Int × ConnId) (rest : Registry) (g : Int)
    (h : p.1 = g) : countKey (p :: rest) g = countKey rest g + 1 := by
  simp [countKey, List.filter_cons, h]

theorem countKey_cons_ne (p : Int × ConnId) (rest : Registry) (g : Int)
    (h : p.1 ≠ g) : countKey (p :: rest) g = countKey rest g := by
  simp [countKey, List.filter_cons, h]

theorem countKey_eraseKey_le_countKey (r : Registry) (k g : Int) :
    countKey (eraseKey r k) g ≤ countKey r g := by
  induction r with
  | nil => simp [countKey, eraseKey]
  | cons p rest ih =>
    by_cases hk : p.1 = k
    · rw [eraseKey_cons_eq _ _ _ hk]
      by_cases hg : p.1 = g
      · rw [countKey_cons_eq _ _ _ hg]
        omega
      · rw [countKey_cons_ne _ _ _ hg]
        exact ih
    · rw [eraseKey_cons_ne _ _ _ hk]
      by_cases hg : p.1 = g
      · rw [countKey_cons_eq _ _ _ hg, countKey_cons_eq _ _ _ hg]
        omega
      · rw [countKey_cons_ne _ _ _ hg, countKey_cons_ne _ _ _ hg]
        exact ih

theorem countKey_eraseKey_self (r : Registry) (k : Int) :
    countKey (eraseKey r k) k = 0 := by
  induction r with
  | nil => rfl
  | cons p rest ih =>
    by_cases hk : p.1 = k
    · rw [eraseKey_cons_eq _ _ _ hk]
      exact ih
    · rw [eraseKey_cons_ne _ _ _ hk, countKey_cons_ne _ _ _ hk]
      exact ih

theorem countKey_mapSet_le (r : Registry) (k : Int) (v : ConnId) (g : Int)
    (h : countKey r g ≤ 1) : countKey (mapSet r k v) g ≤ 1 := by
  unfold mapSet
  by_cases hg : k = g
  · subst hg
    rw [countKey_cons_eq _ _ _ rfl, countKey_eraseKey_self]
  · rw [countKey_cons_ne _ _ _ hg]
    exact le_trans (countKey_eraseKey_le_countKey r k g) h

theorem countKey_step_le (r : Registry) (e : WsEvent) (g : Int)
    (h : countKey r g ≤ 1) : countKey (step r e).1 g ≤ 1 := by
  cases e with
  | clientMsg s frame =>
    cases hm : mapGet r s.vmid <;>
      simpa [step, handleClientMessage, hm] using h
  | upOpen s => exact countKey_mapSet_le r s.vmid s.upstream g h
  | upMsg s frame => simpa [step, handleUpstreamMessage] using h
  | upErr s => simpa [step, handleUpstreamError] using h
  | upClose s code => simpa [step, handleUpstreamClose] using h
  | clientClose s code reason =>
    cases hm : mapGet r s.vmid with
    | none => simpa [step, handleClientClose, hm] using h
    | some c =>
      simp only [step, handleClientClose, hm]
      exact le_trans (countKey_eraseKey_le_countKey r s.vmid g) h

theorem countKey_runEvents_le (evts : List WsEvent) (g : Int) :
    countKey (runEvents evts) g ≤ 1 := by
  have main : ∀ (l : List WsEvent) (r : Registry), countKey r g ≤ 1 →
      countKey (l.foldl (fun r e => (step r e).1) r) g ≤ 1 := by
    intro l
    induction l with
    | nil =>
      intro r h
      simpa using h
    | cons e rest ih =>
      intro r h
      exact ih _ (countKey_step_le r e g h)
  exact main evts [] (by simp [countKey])

/-! ## Spec-side refinement definitions -/

/-- Written from the spec's words for the port invariant of C2: the port
field value parses to a positive integer. -/
def specPortPositiveInt : JsonVal → Bool
  | .str s =>
    match s.toNat? with
    | some n => decide (0 < n)
    | none => false
  | .num n => decide (0 < n)
  | .other => false

/-! ## Field parser characterizations -/

theorem parseVmid_isSome (o : Option JsonVal) :
    (parseVmid o).isSome = true ↔ ∃ n : Int, o = some (.num n) ∧ 0 < n := by
  cases o with
  | none => simp [parseVmid]
  | some v =>
    cases v with
    | str s => simp [parseVmid]
    | num n => by_cases hn : 0 < n <;> simp [parseVmid, hn]
    | other => simp [parseVmid]

theorem parseGuestType_isSome (o : Option JsonVal) :
    (parseGuestType o).isSome = true ↔
      o = some (.str "qemu") ∨ o = some (.str "lxc") := by
  cases o with
  | none => simp [parseGuestType]
  | some v =>
    cases v with
    | str s =>
      by_cases h1 : s = "qemu"
      · simp [parseGuestType, h1]
      · by_cases h2 : s = "lxc" <;> simp [parseGuestType, h1, h2]
    | num n => simp [parseGuestType]
    | other => simp [parseGuestType]

theorem parseHostField_isSome (o : Option JsonVal) :
    (parseHostField o).isSome = true ↔
      ∃ s, o = some (.str s) ∧ isValidHostname s = true := by
  cases o with
  | none => simp [parseHostField]
  | some v =>
    cases v with
    | str s => by_cases h : isValidHostname s = true <;> simp [parseHostField, h]
    | num n => simp [parseHostField]
    | other => simp [parseHostField]

theorem parseStringField_isSome (o : Option JsonVal) :
    (parseStringField o).isSome = true ↔ ∃ s, o = some (.str s) := by
  cases o with
  | none => simp [parseStringField]
  | some v => cases v <;> simp [parseStringField]

theorem parsePortField_isSome (o : Option JsonVal) :
    (parsePortField o).isSome = true ↔
      (∃ s, o = some (.str s)) ∨ (∃ n : Int, o = some (.num n)) := by
  cases o with
  | none => simp [parsePortField]
  | some v => cases v <;> simp [parsePortField]

theorem websocketDataParse_isOk (raw : RawPayload) :
    (websocketDataParse raw).isOk = true ↔
      (parseVmid raw.vmid).isSome = true ∧
      (parseGuestType raw.type).isSome = true ∧
      (parseHostField raw.host).isSome = true ∧
      (parseHostField raw.node).isSome = true ∧
      (parseStringField raw.ticket).isSome = true ∧
      (parseStringField raw.vncticket).isSome = true ∧
      (parsePortField raw.port).isSome = true := by
  unfold websocketDataParse
  cases h1 : parseVmid raw.vmid <;>
    cases h2 : parseGuestType raw.type <;>
      cases h3 : parseHostField raw.host <;>
        cases h4 : parseHostField raw.node <;>
          cases h5 : parseStringField raw.ticket <;>
            cases h6 : parseStringField raw.vncticket <;>
              cases h7 : parsePortField raw.port <;>
                simp [Except.isOk, Except.toBool]

/-! ## Claim theorems -/

/-- Claim C2 counterexample: a descriptor whose port is the number -5 (not
a positive integer, contradicting the claimed port invariant) is accepted
in full by the schema, because the schema constrains port only to be a
string or a number. -/
theorem claim_C2_cex :
    (websocketDataParse
      { vmid := some (.num 1000), type := some (.str "qemu"),
        host := some (.str "pve01.example.com"), node := some (.str "pve01"),
        ticket := some (.str "PVEAPIToken=tok"), vncticket := some (.str "vnc"),
        port := some (.num (-5)) }).isOk = true ∧
    specPortPositiveInt (.num (-5)) = false := by
  constructor
  · decide
  · decide

/-- Claim C2 (amended): the schema accepts a decrypted payload iff vmid is
an integral number greater than zero, type is the string "qemu" or "lxc",
host and node are strings passing the hostname format, ticket and
vncticket are present strings, and port is present as any string or any
number — the schema places no numeric or positivity constraint on port.
Any violation rejects the payload in full. -/
theorem claim_C2 (raw : RawPayload) :
    (websocketDataParse raw).isOk = true ↔
      ((∃ n : Int, raw.vmid = some (.num n) ∧ 0 < n) ∧
       (raw.type = some (.str "qemu") ∨ raw.type = some (.str "lxc")) ∧
       (∃ s, raw.host = some (.str s) ∧ isValidHostname s = true) ∧
       (∃ s, raw.node = some (.str s) ∧ isValidHostname s = true) ∧
       (∃ s, raw.ticket = some (.str s)) ∧
       (∃ s, raw.vncticket = some (.str s)) ∧
       ((∃ s, raw.port = some (.str s)) ∨ (∃ n : Int, raw.port = some (.num n)))) := by
  rw [websocketDataParse_isOk, parseVmid_isSome, parseGuestType_isSome,
    parseHostField_isSome, parseHostField_isSome, parseStringField_isSome,
    parseStringField_isSome, parsePortField_isSome]

/-- Claim C1 counterexample: the upgrade request carrying the malformed
payload "not-a-valid-payload" (no ":" separator) is answered with HTTP 500
"Internal server error" — not with the HTTP 400 malformed-payload response
the claim states — because the thrown malformed-payload Error is not a
ZodError and the catch block maps every non-ZodError to 500. -/
theorem claim_C1_cex :
    relayFetch id true (fun _ => none)
        ⟨"GET", some ("not-a-valid-payload".toList)⟩ =
      .response 500 "Internal server error" [] ∧
    relayFetch id true (fun _ => none)
        ⟨"GET", some ("not-a-valid-payload".toList)⟩ ≠
      .response 400 "Invalid payload" [] := by
  constructor
  · decide
  · decide

/-- Claim C1 (amended): for every GET upgrade request whose payload query
parameter is present, non-empty and lacks the ":" separator, decryption
fails with the malformed-payload error and the relay rejects the upgrade
with HTTP 500 "Internal server error" and empty issues (no upgrade is
performed, so no session or registry entry is created); HTTP 400 is
produced only for a missing payload parameter or a schema validation
failure. -/
theorem claim_C1 (decB : List Byte → List Byte) (keyPresent : Bool)
    (jsonParse : List Byte → Option RawPayload) (payload : List Char)
    (hne : payload ≠ []) (hsep : ':' ∉ payload) :
    decryptPayload decB keyPresent payload = .error .malformed ∧
    relayFetch decB keyPresent jsonParse ⟨"GET", some payload⟩ =
      .response 500 "Internal server error" [] := by
  have hmal : decryptPayload decB keyPresent payload = .error .malformed := by
    unfold decryptPayload
    rw [splitCh_of_not_mem _ _ hsep]
    simp [List.getD]
  refine ⟨hmal, ?_⟩
  unfold relayFetch
  simp only [Option.getD_some]
  rw [if_neg (by simp), if_neg hne, hmal]

/-- Claim C1 witness: the amended theorem applied to the concrete
separator-free payload "xyz". -/
theorem claim_C1_witness :
    decryptPayload id true "xyz".toList = .error .malformed ∧
    relayFetch id true (fun _ => none) ⟨"GET", some ("xyz".toList)⟩ =
      .response 500 "Internal server error" [] :=
  claim_C1 id true (fun _ => none) "xyz".toList (by decide) (by decide)

/-- Claim C4 (confirmed): for every plaintext byte sequence and every
16-byte IV, decrypting the wire string produced by encryption under the
same key yields exactly the plaintext; the AES-256 block primitive under
the fixed 256-bit key is abstracted as any length-preserving block
function pair that is inverse on 16-byte blocks. -/
theorem claim_C4 (encB decB : List Byte → List Byte)
    (h1 : ∀ b : List Byte, b.length = 16 → decB (encB b) = b)
    (h2 : ∀ b : List Byte, b.length = 16 → (encB b).length = 16)
    (iv : List Byte) (hiv : iv.length = 16) (payload : List Byte) :
    decryptPayload decB true (encryptPayload encB iv payload) = .ok payload :=
  decryptPayload_encryptPayload encB decB h1 h2 iv hiv payload

/-- Claim C4 witness: the round trip evaluated with the identity block
pair, the all-zero IV and the two-byte plaintext "hi". -/
theorem claim_C4_witness :
    decryptPayload id true
        (encryptPayload id (List.replicate 16 (0 : Byte)) [104, 105]) =
      .ok [104, 105] :=
  claim_C4 id id (fun _ _ => rfl) (fun _ h => h)
    (List.replicate 16 (0 : Byte)) rfl [104, 105]

/-- Claim C3 counterexample: the claim says the close handler removes the
registry entry only when the registered connection equals the session's
own; here guest 5 is registered to connection 2 while the closing session's
upstream is connection 1, yet the entry is removed (and connection 2 is
closed), so a stale close does clobber a newer registration. -/
theorem claim_C3_cex :
    mapGet [((5 : Int), (2 : ConnId))] 5 = some 2 ∧
    (⟨0, 5, 1⟩ : Session).upstream ≠ 2 ∧
    handleClientClose [((5 : Int), (2 : ConnId))] ⟨0, 5, 1⟩ 1000 "bye" =
      ([], [.closeUpstream 2 1000 "bye"]) :=
  ⟨rfl, by decide, rfl⟩

/-- Claim C3 (amended): the client-close handler removes the registry
entry for the session's guest identifier whenever any connection is
registered there — regardless of whether it is the session's own upstream —
closing that registered connection with the client's close code and
reason; it is a no-op only when no entry exists for the guest. -/
theorem claim_C3 (r : Registry) (s : Session) (code : Nat) (reason : String) :
    (∀ c, mapGet r s.vmid = some c →
      handleClientClose r s code reason =
        (eraseKey r s.vmid, [.closeUpstream c code reason])) ∧
    (mapGet r s.vmid = none → handleClientClose r s code reason = (r, [])) := by
  constructor
  · intro c hc
    simp [handleClientClose, hc]
  · intro hc
    simp [handleClientClose, hc]

/-- Claim C3 witness: the amended theorem applied to the concrete stale
close of the counterexample. -/
theorem claim_C3_witness :
    handleClientClose [((5 : Int), (2 : ConnId))] ⟨0, 5, 1⟩ 1005 "gone" =
      (eraseKey [((5 : Int), (2 : ConnId))] 5,
        [.closeUpstream 2 1005 "gone"]) :=
  (claim_C3 [((5 : Int), (2 : ConnId))] ⟨0, 5, 1⟩ 1005 "gone").1 2 rfl

/-- Claim C5 (confirmed): when the upstream closes with any code, the
upstream close listener closes the client with that same code and the
fixed reason "Upstream websocket closed"; and once the induced client
close event is handled, no registry entry remains for the session's guest
identifier. -/
theorem claim_C5 (r : Registry) (s : Session) (code : Nat) :
    (step r (.upClose s code)).2 =
      [.closeClient s.client code "Upstream websocket closed"] ∧
    mapGet (step (step r (.upClose s code)).1
      (.clientClose s code "Upstream websocket closed")).1 s.vmid = none := by
  constructor
  · rfl
  · show mapGet
      (handleClientClose r s code "Upstream websocket closed").1 s.vmid = none
    cases hm : mapGet r s.vmid with
    | none => simp [handleClientClose, hm]
    | some c => simp [handleClientClose, hm, mapGet_eraseKey_self]

/-- Claim C6 (confirmed): starting from the empty registry, any sequence
of handled events leaves at most one upstream connection registered per
guest identifier; the upstream open listener unconditionally (re)binds the
guest identifier to its own upstream (last-open-wins); and it performs no
effects at all — in particular it does not close a replaced connection. -/
theorem claim_C6 :
    (∀ (evts : List WsEvent) (g : Int), countKey (runEvents evts) g ≤ 1) ∧
    (∀ (r : Registry) (s : Session),
      mapGet (step r (.upOpen s)).1 s.vmid = some s.upstream) ∧
    (∀ (r : Registry) (s : Session), (step r (.upOpen s)).2 = []) :=
  ⟨fun evts g => countKey_runEvents_le evts g,
   fun r s => mapGet_mapSet_self r s.vmid s.upstream,
   fun _ _ => rfl⟩

/-- Claim C7 (confirmed): the target URL is a deterministic function of
the validated descriptor, with scheme wss, authority the descriptor's
host, the fixed path template holding node, guest type and vmid in that
order, and the port and console ticket (the vncticket field) set verbatim
as query parameters; a numeric port and the equal numeric string produce
the same URL. -/
theorem claim_C7 (host node : String) (vmid : Int) (type : GuestType)
    (port : PortVal) (vncticket : String) :
    (constructWebsocketUrl host node vmid type port vncticket).protocol = "wss:" ∧
    (constructWebsocketUrl host node vmid type port vncticket).host = host ∧
    (constructWebsocketUrl host node vmid type port vncticket).pathname =
      "/api2/json/nodes/" ++ node ++ "/" ++ guestTypeStr type ++ "/" ++
        toString vmid ++ "/vncwebsocket" ∧
    (constructWebsocketUrl host node vmid type port vncticket).searchParams =
      [("port", portToString port), ("vncticket", vncticket)] ∧
    (∀ n : Int, constructWebsocketUrl host node vmid type (.num n) vncticket =
      constructWebsocketUrl host node vmid type (.str (toString n)) vncticket) :=
  ⟨rfl, rfl, rfl, rfl, fun _ => rfl⟩

/-- Claim C8 (confirmed): the upstream authorization header is the ticket
unchanged exactly when the ticket starts with "PVEAPIToken=", and
otherwise is the ticket wrapped as "PVEAuthCookie=" ++ ticket; the string
starts-with check alone decides between the two forms. -/
theorem claim_C8 (t : String) :
    (jsStartsWith t "PVEAPIToken=" = true → authorizationHeader t = t) ∧
    (jsStartsWith t "PVEAPIToken=" = false →
      authorizationHeader t = "PVEAuthCookie=" ++ t) ∧
    (authorizationHeader t = t ↔ jsStartsWith t "PVEAPIToken=" = true) := by
  refine ⟨fun h => by simp [authorizationHeader, h],
    fun h => by simp [authorizationHeader, h], ?_, ?_⟩
  · intro he
    by_cases h : jsStartsWith t "PVEAPIToken=" = true
    · exact h
    · exfalso
      rw [authorizationHeader, if_neg h] at he
      have hlen := congrArg String.length he
      rw [String.length_append] at hlen
      have h14 : ("PVEAuthCookie=" : String).length = 14 := rfl
      omega
  · intro h
    simp [authorizationHeader, h]

/-- Claim C8 witness: an API-token ticket passes through unchanged and a
cookie-value ticket is wrapped. -/
theorem claim_C8_witness :
    authorizationHeader "PVEAPIToken=abc" = "PVEAPIToken=abc" ∧
    authorizationHeader "cookieval" = "PVEAuthCookie=" ++ "cookieval" :=
  ⟨(claim_C8 "PVEAPIToken=abc").1 (by decide),
   (claim_C8 "cookieval").2.1 (by decide)⟩

/-- Claim C9 (confirmed): the message handler resolves the upstream by a
registry lookup under the client's vmid at frame arrival time, so after a
second session with the same guest identifier registers its upstream
(overwriting the first), a frame from the first session's client is
forwarded to the second session's upstream connection. -/
theorem claim_C9 (r : Registry) (s1 s2 : Session) (frame : String)
    (h : s1.vmid = s2.vmid) :
    (step (step r (.upOpen s2)).1 (.clientMsg s1 frame)).2 =
      [.sendUpstream s2.upstream frame] := by
  show (handleClientMessage (mapSet r s2.vmid s2.upstream) s1 frame).2 = _
  rw [handleClientMessage, h, mapGet_mapSet_self]

/-- Claim C9 witness: session one (client 3, upstream 42) and session two
(client 10, upstream 99) share guest 7; after session two registers, the
frame from client 3 goes to upstream 99. -/
theorem claim_C9_witness :
    (step (step [] (.upOpen ⟨10, 7, 99⟩)).1 (.clientMsg ⟨3, 7, 42⟩ "hello")).2 =
      [.sendUpstream 99 "hello"] :=
  claim_C9 [] ⟨3, 7, 42⟩ ⟨10, 7, 99⟩ "hello" rfl

/-- Claim C10 (confirmed): no event other than an upstream open creates a
registry entry, and a client frame handled while no upstream is registered
for the client's guest identifier is not forwarded — its only effect is
closing the client with code 1011 and reason "Upstream websocket not
found". -/
theorem claim_C10 :
    (∀ (r : Registry) (e : WsEvent) (g : Int), (∀ s : Session, e ≠ .upOpen s) →
      mapGet r g = none → mapGet (step r e).1 g = none) ∧
    (∀ (r : Registry) (s : Session) (frame : String), mapGet r s.vmid = none →
      (step r (.clientMsg s frame)).2 =
        [.closeClient s.client 1011 "Upstream websocket not found"]) := by
  constructor
  · intro r e g hne h
    cases e with
    | clientMsg s frame =>
      show mapGet (handleClientMessage r s frame).1 g = none
      cases hm : mapGet r s.vmid <;> simpa [handleClientMessage, hm] using h
    | upOpen s => exact absurd rfl (hne s)
    | upMsg s frame => exact h
    | upErr s => exact h
    | upClose s code => exact h
    | clientClose s code reason =>
      show mapGet (handleClientClose r s code reason).1 g = none
      cases hm : mapGet r s.vmid with
      | none => simpa [handleClientClose, hm] using h
      | some c =>
        simpa [handleClientClose, hm] using mapGet_eraseKey_none r s.vmid g h
  · intro r s frame h
    show (handleClientMessage r s frame).2 = _
    rw [handleClientMessage, h]

/-- Claim C10 witness: on the empty registry, a frame from client 3 for
guest 7 only closes the client with 1011, and an upstream message event
creates no entry for guest 7. -/
theorem claim_C10_witness :
    (step [] (.clientMsg ⟨3, 7, 42⟩ "hello")).2 =
      [.closeClient 3 1011 "Upstream websocket not found"] ∧
    mapGet (step [] (.upMsg ⟨3, 7, 42⟩ "world")).1 7 = none :=
  ⟨claim_C10.2 [] ⟨3, 7, 42⟩ "hello" rfl,
   claim_C10.1 [] (.upMsg ⟨3, 7, 42⟩ "world") 7 (fun s hs => by cases hs) rfl⟩

end Proxxy
